import Mathlib

/-!
Shallow embedding of `src/kudu/scripts/upgrade.py`: the parcel-upgrade
orchestration script.  Version strings are modelled as `List Char`, the
remote control plane as explicit fetch functions, exceptions as `Except`
values, and the collaborator calls issued by the lifecycle driver and the
orchestrator as an explicit trace of `Action`s.
-/

namespace KuduUpgrade

/-- A parcel record as consumed by the script: `product`, raw `version`
string and lifecycle `stage` (one of the stage strings used by Cloudera
Manager, e.g. `"ACTIVATED"`). -/
structure Parcel where
  product : String
  version : List Char
  stage : String
deriving DecidableEq

/-- The state of a re-fetched parcel record as seen by one poll of
`wait_for_parcel_stage`: its `stage`, the remote error list
(`state.errors`) and the advisory progress counters. -/
structure PState where
  stage : String
  errors : List String
  progress : Nat
  totalProgress : Nat
deriving DecidableEq

/-- The exceptions the script can raise (each `raise Exception(...)` site
of the source gets one constructor carrying the data interpolated into the
message). -/
inductive Err where
  | buildFormat (version : List Char)
  | releaseFormat (version : List Char)
  | noActiveParcel (name : String)
  | noService (name : String)
  | ambiguousService (name : String)
  | remote (attempt : Nat) (errors : List String)
  | stageTimeout (product : String) (version : List Char) (target : String) (maxTime : Nat)
deriving DecidableEq

/-- Outcome of one `wait_for_parcel_stage` call: normal return after a
given number of polls, the remote-error exception, or the timeout
exception (carrying the data of the message plus the number of polls
performed). -/
inductive WaitResult where
  | success (attempt : Nat)
  | remoteError (attempt : Nat) (errors : List String)
  | timeout (product : String) (version : List Char) (target : String) (maxTime : Nat) (polls : Nat)
deriving DecidableEq

/-- A collaborator call issued by the script.  `wait` entries record which
target stage a `wait_for_parcel_stage` call polled for; the others are the
mutating parcel/service calls. -/
inductive Action where
  | start_download
  | start_distribution
  | activate
  | wait (target : String)
  | start_removal_of_distribution
  | remove_download
  | restart_service (name : String)
  | restart_stale
deriving DecidableEq

/-- A service record; only `displayName` is consumed. -/
structure Service where
  displayName : String
deriving DecidableEq

/-- The cluster as seen through `get_all_parcels` / `get_all_services`. -/
structure Cluster where
  parcels : List Parcel
  services : List Service
deriving DecidableEq

/-- The command-line arguments consumed past cluster resolution. -/
structure Args where
  parcel_name : String
  service_name : Option String
  max_time_per_stage : Nat
  clear_after_success : Bool
  dry_run : Bool
deriving DecidableEq

/-! ## Version parser -/

/-- Numeric value of a decimal digit string (what Python's `int` returns
on the regex group). -/
def natOfDigits (ds : List Char) : Nat :=
  ds.foldl (fun a c => a * 10 + (c.toNat - 48)) 0

/-- Greedy `\d+`: split off the maximal leading run of decimal digits,
failing if it is empty. -/
def parseNum (cs : List Char) : Option (List Char × List Char) :=
  match cs.takeWhile Char.isDigit, cs.dropWhile Char.isDigit with
  | [], _ => none
  | d :: ds, r => some (d :: ds, r)

/-- Literal `\.`: consume one dot. -/
def expectDot : List Char → Option (List Char)
  | c :: r => if c = '.' then some r else none
  | [] => none

/-- `re.match("(\d+\.\d+\.\d+).*", v)` and group 1, from the nested
`get_release_version` helper: the leading `major.minor.patch` triple of a
version string, `none` when the pattern does not match. -/
def get_release_version (cs : List Char) : Option (List Char) :=
  match parseNum cs with
  | none => none
  | some (d1, r1) =>
    match expectDot r1 with
    | none => none
    | some r2 =>
      match parseNum r2 with
      | none => none
      | some (d2, r3) =>
        match expectDot r3 with
        | none => none
        | some r4 =>
          match parseNum r4 with
          | none => none
          | some (d3, _) => some (d1 ++ '.' :: (d2 ++ '.' :: d3))

/-- Python's `$` (no `re.MULTILINE`): the match may end at the end of
the string or just before one trailing newline, so matching against
`...$` is matching against the string with one trailing `'\n'`
removed. -/
def stripTrailingNewline (cs : List Char) : List Char :=
  if cs.getLast? = some '\n' then cs.dropLast else cs

/-- `re.match(".*p\d+\.(\d+)$", v)` and `int(group 1)`, from
`get_build_number`: the trailing build number of a version string, `none`
when the pattern does not match.  Python semantics: `$` also matches just
before one trailing newline (hence the strip), and `.` never matches
`'\n'`, so the prefix consumed by `.*` must be newline-free.  Matching is
performed from the right: after the strip the string must end in
`p<digits>.<digits>` with no `'\n'` before the `p`. -/
def get_build_number (cs : List Char) : Option Nat :=
  match parseNum (stripTrailingNewline cs).reverse with
  | none => none
  | some (d, r1) =>
    match expectDot r1 with
    | none => none
    | some r2 =>
      match parseNum r2 with
      | none => none
      | some (_, r3) =>
        match r3 with
        | c :: rest =>
          if c = 'p' then
            if rest.all (fun x => x != '\n') then some (natOfDigits d.reverse) else none
          else none
        | [] => none

/-- `get_build_number` with the source's `raise` on a failed match. -/
def getBuildE (v : List Char) : Except Err Nat :=
  match get_build_number v with
  | some b => .ok b
  | none => .error (.buildFormat v)

/-- `get_release_version` with the source's `raise` on a failed match. -/
def getReleaseE (v : List Char) : Except Err (List Char) :=
  match get_release_version v with
  | some r => .ok r
  | none => .error (.releaseFormat v)

/-- `release_versions_match(parcel1, parcel2)`: parses both release
versions (first argument first, propagating its exception) and compares
them for equality. -/
def release_versions_match (p1 p2 : Parcel) : Except Err Bool :=
  match getReleaseE p1.version with
  | .error e => .error e
  | .ok r1 =>
    match getReleaseE p2.version with
    | .error e => .error e
    | .ok r2 => .ok (decide (r1 = r2))

/-! ## Candidate selector -/

/-- Byte-wise (code-point) lexicographic `<` on raw version strings:
Python 2's `str` comparison, the key of the final `max(...)`. -/
def ltStr : List Char → List Char → Bool
  | [], [] => false
  | [], _ :: _ => true
  | _ :: _, [] => false
  | a :: as, b :: bs =>
    if a.toNat < b.toNat then true
    else if b.toNat < a.toNat then false
    else ltStr as bs

/-- Python's `max(iterable, key=...)` after the first element: keeps the
current best and replaces it only on a strictly greater key, so ties keep
the earlier element; a failing key evaluation propagates as an
exception. -/
def maxByAux {κ : Type} (key : Parcel → Except Err κ) (lt : κ → κ → Bool) :
    Parcel → κ → List Parcel → Except Err Parcel
  | best, _, [] => .ok best
  | best, bkey, p :: ps =>
    match key p with
    | .error e => .error e
    | .ok k => if lt bkey k then maxByAux key lt p k ps else maxByAux key lt best bkey ps

/-- Python's `max(p :: ps, key=...)`. -/
def pyMax1 {κ : Type} (key : Parcel → Except Err κ) (lt : κ → κ → Bool)
    (p : Parcel) (ps : List Parcel) : Except Err Parcel :=
  match key p with
  | .error e => .error e
  | .ok k => maxByAux key lt p k ps

/-- A Python list comprehension `[p for p in ps if pred p]` whose
predicate may raise: elements are tested in order and the first exception
propagates. -/
def filterM (pred : Parcel → Except Err Bool) : List Parcel → Except Err (List Parcel)
  | [] => .ok []
  | p :: ps =>
    match pred p with
    | .error e => .error e
    | .ok b =>
      match filterM pred ps with
      | .error e => .error e
      | .ok rest => .ok (if b then p :: rest else rest)

/-- The `activated_parcels` list built by the partition loop of
`get_best_upgrade_candidate_parcel`. -/
def activated_parcels (parcels : List Parcel) (name : String) : List Parcel :=
  parcels.filter (fun p => p.product == name && p.stage == "ACTIVATED")

/-- The initial `candidate_parcels` list built by the partition loop of
`get_best_upgrade_candidate_parcel` (same product, any other stage). -/
def other_parcels (parcels : List Parcel) (name : String) : List Parcel :=
  parcels.filter (fun p => p.product == name && p.stage != "ACTIVATED")

/-- `greatest_activated = max(activated_parcels, key=get_build_number)`,
or the source's "No activated ... parcels found" exception when the
activated list is empty. -/
def greatest_activated (parcels : List Parcel) (name : String) : Except Err Parcel :=
  match activated_parcels parcels name with
  | [] => .error (.noActiveParcel name)
  | a :: as => pyMax1 (fun p => getBuildE p.version) (fun a b => decide (a < b)) a as

/-- The filter predicate of step 4:
`release_versions_match(parcel, greatest) and
 get_build_number(parcel) > get_build_number(greatest)`
with Python's short-circuiting `and`. -/
def candPred (g p : Parcel) : Except Err Bool :=
  match release_versions_match p g with
  | .error e => .error e
  | .ok false => .ok false
  | .ok true =>
    match getBuildE p.version with
    | .error e => .error e
    | .ok b1 =>
      match getBuildE g.version with
      | .error e => .error e
      | .ok b2 => .ok (decide (b2 < b1))

/-- The re-bound `candidate_parcels` list after the filtering
comprehension of `get_best_upgrade_candidate_parcel`. -/
def filtered_candidates (parcels : List Parcel) (name : String) : Except Err (List Parcel) :=
  match greatest_activated parcels name with
  | .error e => .error e
  | .ok g => filterM (candPred g) (other_parcels parcels name)

/-- `get_best_upgrade_candidate_parcel(cluster, parcel_name)`: `.ok none`
for "no upgrade candidates", `.ok (some p)` for the chosen parcel
(`max(candidate_parcels, key=lambda p: p.version)`), `.error` for the
raised exceptions. -/
def get_best_upgrade_candidate_parcel (parcels : List Parcel) (name : String) :
    Except Err (Option Parcel) :=
  match filtered_candidates parcels name with
  | .error e => .error e
  | .ok [] => .ok none
  | .ok (c :: cs) =>
    match pyMax1 (fun p => .ok p.version) ltStr c cs with
    | .error e => .error e
    | .ok best => .ok (some best)

/-! ## Stage waiter -/

/-- The loop body of `wait_for_parcel_stage`, by remaining iterations:
each iteration re-fetches the record (`fetch attempt`), returns success if
the stage matches, raises if the error list is non-empty, otherwise
sleeps and continues; exhausting the loop raises the timeout
exception. -/
def waitAux (fetch : Nat → PState) (product : String) (version : List Char)
    (target : String) (maxTime : Nat) : Nat → Nat → WaitResult
  | 0, attempt => .timeout product version target maxTime (attempt - 1)
  | n + 1, attempt =>
    if (fetch attempt).stage = target then .success attempt
    else if (fetch attempt).errors ≠ [] then .remoteError attempt (fetch attempt).errors
    else waitAux fetch product version target maxTime n (attempt + 1)

/-- `wait_for_parcel_stage(cluster, parcel, stage, max_time)`: polls
`fetch 1`, `fetch 2`, ... (the record returned by
`cluster.get_parcel(parcel.product, parcel.version)` on each second) for
at most `maxTime` attempts. -/
def wait_for_parcel_stage (fetch : Nat → PState) (parcel : Parcel)
    (target : String) (maxTime : Nat) : WaitResult :=
  waitAux fetch parcel.product parcel.version target maxTime maxTime 1

/-- Number of polls (re-fetches) a `wait_for_parcel_stage` outcome
performed. -/
def pollCount : WaitResult → Nat
  | .success attempt => attempt
  | .remoteError attempt _ => attempt
  | .timeout _ _ _ _ polls => polls

/-! ## Lifecycle driver -/

/-- One `wait_for_parcel_stage` call as used by the drivers: `none` on
success, `some` of the raised exception otherwise.  The environment `env`
gives the fetch sequence observed while waiting for each target stage. -/
def doWait (env : String → Nat → PState) (parcel : Parcel) (target : String)
    (maxTime : Nat) : Option Err :=
  match wait_for_parcel_stage (env target) parcel target maxTime with
  | .success _ => none
  | .remoteError a es => some (.remote a es)
  | .timeout p v t m _ => some (.stageTimeout p v t m)

/-- The `if parcel_stage == "DISTRIBUTED"` step of
`ensure_parcel_activated`: `parcel.activate()` then wait for
`ACTIVATED`. -/
def activate_phase (env : String → Nat → PState) (parcel : Parcel) (maxTime : Nat) :
    List Action × Option Err :=
  ([.activate, .wait "ACTIVATED"], doWait env parcel "ACTIVATED" maxTime)

/-- The `if parcel_stage == "DOWNLOADED"` step of
`ensure_parcel_activated`: `parcel.start_distribution()`, wait for
`DISTRIBUTED`, then fall through to the activate step. -/
def distribute_phase (env : String → Nat → PState) (parcel : Parcel) (maxTime : Nat) :
    List Action × Option Err :=
  match doWait env parcel "DISTRIBUTED" maxTime with
  | some e => ([.start_distribution, .wait "DISTRIBUTED"], some e)
  | none =>
    let r := activate_phase env parcel maxTime
    (.start_distribution :: .wait "DISTRIBUTED" :: r.1, r.2)

/-- The `if parcel_stage == "AVAILABLE_REMOTELY"` step of
`ensure_parcel_activated`: `parcel.start_download()`, wait for
`DOWNLOADED`, then fall through to the distribute step. -/
def download_phase (env : String → Nat → PState) (parcel : Parcel) (maxTime : Nat) :
    List Action × Option Err :=
  match doWait env parcel "DOWNLOADED" maxTime with
  | some e => ([.start_download, .wait "DOWNLOADED"], some e)
  | none =>
    let r := distribute_phase env parcel maxTime
    (.start_download :: .wait "DOWNLOADED" :: r.1, r.2)

/-- `ensure_parcel_activated(cluster, parcel, max_time_per_stage)`: under
the dry-run flag, only an advisory print.  Otherwise the falls-through
sequence keyed on the entry stage; any stage outside
`AVAILABLE_REMOTELY`/`DOWNLOADED`/`DISTRIBUTED` does nothing.  Returns the
trace of collaborator calls issued together with the raised exception, if
any. -/
def ensure_parcel_activated (dry_run : Bool) (env : String → Nat → PState)
    (parcel : Parcel) (maxTime : Nat) : List Action × Option Err :=
  if dry_run then ([], none)
  else if parcel.stage = "AVAILABLE_REMOTELY" then download_phase env parcel maxTime
  else if parcel.stage = "DOWNLOADED" then distribute_phase env parcel maxTime
  else if parcel.stage = "DISTRIBUTED" then activate_phase env parcel maxTime
  else ([], none)

/-- `ensure_parcel_removed(cluster, parcel, max_time_per_stage)`: remove
the distribution (waiting for `DOWNLOADED`), then remove the download
without any post-condition wait. -/
def ensure_parcel_removed (env : String → Nat → PState) (parcel : Parcel)
    (maxTime : Nat) : List Action × Option Err :=
  if parcel.stage = "DISTRIBUTED" then
    match doWait env parcel "DOWNLOADED" maxTime with
    | some e => ([.start_removal_of_distribution, .wait "DOWNLOADED"], some e)
    | none => ([.start_removal_of_distribution, .wait "DOWNLOADED", .remove_download], none)
  else if parcel.stage = "DOWNLOADED" then ([.remove_download], none)
  else ([], none)

/-! ## Orchestrator -/

/-- `find_service(cluster, service_name)`. -/
def find_service (cluster : Cluster) (name : String) : Except Err Service :=
  match cluster.services.filter (fun s => s.displayName == name) with
  | [] => .error (.noService name)
  | [s] => .ok s
  | _ => .error (.ambiguousService name)

/-- The clearing loop of `main`: each inactive parcel is removed in turn
and the first exception abandons the remaining removals. -/
def removeAll (env : Parcel → String → Nat → PState) (maxTime : Nat) :
    List Parcel → List Action × Option Err
  | [] => ([], none)
  | p :: ps =>
    let r := ensure_parcel_removed (env p) p maxTime
    match r.2 with
    | some e => (r.1, some e)
    | none =>
      let rest := removeAll env maxTime ps
      (r.1 ++ rest.1, rest.2)

/-- `main` after cluster resolution: candidate selection, activation,
synchronous restart (of the named service, or of stale services), and the
optional clearing of inactive parcels.  `envA` supplies the fetch
sequences seen by the activation waits, `envR` those seen by each
removal's waits.  Returns the trace of collaborator calls issued and the
exception aborting the run, if any. -/
def main (args : Args) (cluster : Cluster) (envA : String → Nat → PState)
    (envR : Parcel → String → Nat → PState) : List Action × Option Err :=
  match get_best_upgrade_candidate_parcel cluster.parcels args.parcel_name with
  | .error e => ([], some e)
  | .ok none => ([], none)
  | .ok (some parcel) =>
    let r1 := ensure_parcel_activated args.dry_run envA parcel args.max_time_per_stage
    match r1.2 with
    | some e => (r1.1, some e)
    | none =>
      let restartStep : List Action × Option Err :=
        match args.service_name with
        | some sn =>
          match find_service cluster sn with
          | .error e => ([], some e)
          | .ok s => if args.dry_run then ([], none) else ([.restart_service s.displayName], none)
        | none => if args.dry_run then ([], none) else ([.restart_stale], none)
      match restartStep.2 with
      | some e => (r1.1 ++ restartStep.1, some e)
      | none =>
        if args.clear_after_success then
          let inactive := cluster.parcels.filter
            (fun p => p.product == args.parcel_name && p.stage != "ACTIVATED")
          if args.dry_run then (r1.1 ++ restartStep.1, none)
          else
            let r3 := removeAll envR args.max_time_per_stage inactive
            (r1.1 ++ restartStep.1 ++ r3.1, r3.2)
        else (r1.1 ++ restartStep.1, none)

/-! ## Spec-side version patterns (for the refinement claim about the
parser) -/

/-- Modelled from the spec: "the string must begin with three
dot-separated integer groups (`\d+\.\d+\.\d+`); return that substring".
A version string has the release pattern with value `r` when it
decomposes as three non-empty digit groups separated by literal dots,
followed by a remainder that does not begin with a digit (so the third
group is the whole third integer), and `r` is the triple. -/
def releaseVersionPattern (cs r : List Char) : Prop :=
  ∃ d1 d2 d3 rest,
    cs = d1 ++ '.' :: (d2 ++ '.' :: (d3 ++ rest)) ∧
    d1 ≠ [] ∧ (∀ c ∈ d1, c.isDigit = true) ∧
    d2 ≠ [] ∧ (∀ c ∈ d2, c.isDigit = true) ∧
    d3 ≠ [] ∧ (∀ c ∈ d3, c.isDigit = true) ∧
    (∀ c, rest.head? = some c → c.isDigit = false) ∧
    r = d1 ++ '.' :: (d2 ++ '.' :: d3)

/-- Modelled from the spec: "the string must end with the literal marker
`p<digits>.` followed by a trailing integer; return that trailing integer
as a number".  A version string has the build pattern with value `b` when
it ends in `p`, a non-empty digit group, a literal dot, and a non-empty
trailing digit group whose numeric value is `b`. -/
def buildNumberPattern (cs : List Char) (b : Nat) : Prop :=
  ∃ a n d,
    cs = a ++ 'p' :: (n ++ '.' :: d) ∧
    n ≠ [] ∧ (∀ c ∈ n, c.isDigit = true) ∧
    d ≠ [] ∧ (∀ c ∈ d, c.isDigit = true) ∧
    b = natOfDigits d

/-- The build pattern with Python's regex semantics for
`re.match(".*p\d+\.(\d+)$", v)`: `$` (without `re.MULTILINE`) also
matches just before one trailing newline, so the trailing integer may be
followed by a single `'\n'`; and `.` never matches `'\n'`, so the prefix
consumed by `.*` must contain no newline. -/
def buildNumberPatternNewline (cs : List Char) (b : Nat) : Prop :=
  ∃ a n d t,
    cs = a ++ 'p' :: (n ++ '.' :: (d ++ t)) ∧
    (t = [] ∨ t = ['\n']) ∧
    (∀ c ∈ a, c ≠ '\n') ∧
    n ≠ [] ∧ (∀ c ∈ n, c.isDigit = true) ∧
    d ≠ [] ∧ (∀ c ∈ d, c.isDigit = true) ∧
    b = natOfDigits d

/-- A version string carrying one trailing newline: Python's `$` still
matches before it, so `get_build_number` parses it although it does not
end in a trailing integer. -/
def c5Newline : List Char := "1.4.0-1.cdh5.12.0.p0.814\n".data

/-! ## Concrete inputs used by witnesses and counterexamples -/

/-- The spec's §8 scenario: the activated baseline. -/
def w1Act : Parcel := ⟨"KUDU", "1.4.0-1.cdh5.12.0.p0.800".data, "ACTIVATED"⟩

/-- The spec's §8 scenario: the matching-release higher-build candidate. -/
def w1Cand : Parcel := ⟨"KUDU", "1.4.0-1.cdh5.12.0.p0.810".data, "DOWNLOADED"⟩

/-- The spec's §8 scenario: the cross-release parcel. -/
def w1Other : Parcel := ⟨"KUDU", "1.5.0-1.cdh5.12.0.p0.900".data, "AVAILABLE_REMOTELY"⟩

/-- The spec's §8 scenario parcel list. -/
def w1Parcels : List Parcel := [w1Act, w1Cand, w1Other]

/-- Lex-vs-numeric example: the activated baseline at build 8. -/
def c2Act : Parcel := ⟨"KUDU", "1.4.0-1.p0.8".data, "ACTIVATED"⟩

/-- Lex-vs-numeric example: candidate at build 9 (lexicographically the
greatest version string). -/
def c2P9 : Parcel := ⟨"KUDU", "1.4.0-1.p0.9".data, "DOWNLOADED"⟩

/-- Lex-vs-numeric example: candidate at build 10 (numerically the
greatest build). -/
def c2P10 : Parcel := ⟨"KUDU", "1.4.0-1.p0.10".data, "DOWNLOADED"⟩

/-- Lex-vs-numeric example parcel list. -/
def c2Parcels : List Parcel := [c2Act, c2P9, c2P10]

/-- Already-up-to-date example: the activated baseline. -/
def c3Act : Parcel := ⟨"KUDU", "1.4.0-1.cdh5.12.0.p0.800".data, "ACTIVATED"⟩

/-- Already-up-to-date example: a same-release downgrade. -/
def c3Down : Parcel := ⟨"KUDU", "1.4.0-1.cdh5.12.0.p0.700".data, "DOWNLOADED"⟩

/-- Already-up-to-date example: a cross-release parcel with a higher
build. -/
def c3Cross : Parcel := ⟨"KUDU", "1.5.0-1.cdh5.12.0.p0.900".data, "DOWNLOADED"⟩

/-- Already-up-to-date example parcel list. -/
def c3Parcels : List Parcel := [c3Act, c3Down, c3Cross]

/-- No-activated-baseline example parcel list. -/
def c4Parcels : List Parcel :=
  [⟨"KUDU", "1.4.0-1.cdh5.12.0.p0.800".data, "DOWNLOADED"⟩,
   ⟨"OTHER", "2.0.0-1.cdh5.12.0.p0.5".data, "ACTIVATED"⟩]

/-- A parcel being waited on in the stage-waiter examples. -/
def c6Parcel : Parcel := ⟨"KUDU", "1.4.0-1.p0.9".data, "DISTRIBUTED"⟩

/-- Fetch sequence whose very first record is at the target stage but
also reports a non-empty error list. -/
def c6FetchCE : Nat → PState := fun _ => ⟨"ACTIVATED", ["remote failure"], 0, 0⟩

/-- Fetch sequence that reports an error on the third poll only. -/
def c6FetchW : Nat → PState :=
  fun i => if i = 3 then ⟨"DOWNLOADED", ["conn reset"], 1, 10⟩ else ⟨"DOWNLOADED", [], 1, 10⟩

/-- Fetch sequence that never reaches any target stage and never
errors. -/
def c7Fetch : Nat → PState := fun _ => ⟨"DOWNLOADED", [], 2, 10⟩

/-- Fetch sequence that reaches the target stage on the second poll while
simultaneously reporting an error. -/
def c10Fetch : Nat → PState :=
  fun i => if i = 2 then ⟨"ACTIVATED", ["late error"], 9, 10⟩ else ⟨"DOWNLOADED", [], 5, 10⟩

/-- Environment in which every wait finds its target stage on the first
poll. -/
def happyEnv : String → Nat → PState := fun t _ => ⟨t, [], 0, 0⟩

/-- A parcel entering the driver at stage `DISTRIBUTED`. -/
def c8Distributed : Parcel := ⟨"KUDU", "1.4.0-1.p0.9".data, "DISTRIBUTED"⟩

/-- A parcel entering the driver already `ACTIVATED`. -/
def c8Activated : Parcel := ⟨"KUDU", "1.4.0-1.p0.9".data, "ACTIVATED"⟩

/-- Dry-run example arguments: a named service, clearing enabled. -/
def c9Args : Args := ⟨"KUDU", some "kudu", 120, true, true⟩

/-- Dry-run example cluster: an upgrade candidate exists and the named
service is present. -/
def c9Cluster : Cluster := ⟨[c2Act, c2P9, c2P10], [⟨"kudu"⟩]⟩

/-! ## Version-parser lemmas -/

theorem takeWhile_mem_true {p : Char → Bool} :
    ∀ (l : List Char), ∀ c ∈ l.takeWhile p, p c = true := by
  intro l
  induction l with
  | nil => intro c hc; simp at hc
  | cons a l ih =>
    intro c hc
    rw [List.takeWhile_cons] at hc
    by_cases h : p a = true
    · simp only [h, if_true, List.mem_cons] at hc
      rcases hc with rfl | hc
      · exact h
      · exact ih c hc
    · simp [h] at hc

theorem dropWhile_head_false {p : Char → Bool} :
    ∀ (l : List Char) (c : Char), (l.dropWhile p).head? = some c → p c = false := by
  intro l
  induction l with
  | nil => intro c hc; simp at hc
  | cons a l ih =>
    intro c hc
    rw [List.dropWhile_cons] at hc
    by_cases h : p a = true
    · simp only [h, if_true] at hc
      exact ih c hc
    · simp only [h, if_false, Bool.false_eq_true, ite_false, List.head?_cons,
        Option.some.injEq] at hc
      subst hc
      exact Bool.not_eq_true _ ▸ eq_false_of_ne_true h

theorem split_run {p : Char → Bool} :
    ∀ (d t : List Char), (∀ c ∈ d, p c = true) →
      (∀ c, t.head? = some c → p c = false) →
      (d ++ t).takeWhile p = d ∧ (d ++ t).dropWhile p = t := by
  intro d
  induction d with
  | nil =>
    intro t _ ht
    cases t with
    | nil => exact ⟨rfl, rfl⟩
    | cons x xs =>
      have hx := ht x rfl
      constructor
      · rw [List.nil_append, List.takeWhile_cons, hx]
        simp
      · rw [List.nil_append, List.dropWhile_cons, hx]
        simp
  | cons a d ih =>
    intro t ha ht
    have hpa : p a = true := ha a (List.mem_cons_self a d)
    have ihs := ih t (fun c hc => ha c (List.mem_cons_of_mem a hc)) ht
    constructor
    · rw [List.cons_append, List.takeWhile_cons, hpa]
      simp [ihs.1]
    · rw [List.cons_append, List.dropWhile_cons, hpa]
      simp [ihs.2]

theorem parseNum_spec (cs d r : List Char) :
    parseNum cs = some (d, r) ↔
      cs = d ++ r ∧ d ≠ [] ∧ (∀ c ∈ d, c.isDigit = true) ∧
        (∀ c, r.head? = some c → c.isDigit = false) := by
  constructor
  · intro h
    unfold parseNum at h
    split at h
    · exact absurd h (by simp)
    · rename_i d0 ds r0 heq
      rw [Option.some.injEq, Prod.mk.injEq] at h
      obtain ⟨h1, h2⟩ := h
      subst h1
      subst h2
      refine ⟨?_, by simp, ?_, ?_⟩
      · rw [← heq]
        exact (List.takeWhile_append_dropWhile (p := Char.isDigit) (l := cs)).symm
      · intro c hc
        rw [← heq] at hc
        exact takeWhile_mem_true cs c hc
      · intro c hc
        exact dropWhile_head_false cs c hc
  · rintro ⟨rfl, hne, hd, hr⟩
    obtain ⟨h1, h2⟩ := split_run d r hd hr
    unfold parseNum
    rw [h1, h2]
    cases d with
    | nil => exact absurd rfl hne
    | cons x xs => rfl

theorem expectDot_spec (r r2 : List Char) :
    expectDot r = some r2 ↔ r = '.' :: r2 := by
  constructor
  · intro h
    cases r with
    | nil => simp [expectDot] at h
    | cons c cs =>
      unfold expectDot at h
      by_cases hc : c = '.'
      · subst hc
        simp at h
        rw [h]
      · simp [hc] at h
  · rintro rfl
    simp [expectDot]

theorem get_release_version_spec (cs r : List Char) :
    get_release_version cs = some r ↔ releaseVersionPattern cs r := by
  constructor
  · intro h
    unfold get_release_version at h
    split at h
    · exact absurd h (by simp)
    rename_i d1 r1 hp1
    split at h
    · exact absurd h (by simp)
    rename_i r2 hdot1
    split at h
    · exact absurd h (by simp)
    rename_i d2 r3 hp2
    split at h
    · exact absurd h (by simp)
    rename_i r4 hdot2
    split at h
    · exact absurd h (by simp)
    rename_i d3 rest hp3
    rw [Option.some.injEq] at h
    obtain ⟨hcs1, hne1, hd1, _⟩ := (parseNum_spec cs d1 r1).mp hp1
    have hr1 := (expectDot_spec r1 r2).mp hdot1
    obtain ⟨hcs2, hne2, hd2, _⟩ := (parseNum_spec r2 d2 r3).mp hp2
    have hr3 := (expectDot_spec r3 r4).mp hdot2
    obtain ⟨hcs3, hne3, hd3, hrest⟩ := (parseNum_spec r4 d3 rest).mp hp3
    refine ⟨d1, d2, d3, rest, ?_, hne1, hd1, hne2, hd2, hne3, hd3, hrest, h.symm⟩
    rw [hcs1, hr1, hcs2, hr3, hcs3]
  · rintro ⟨d1, d2, d3, rest, rfl, hne1, hd1, hne2, hd2, hne3, hd3, hrest, rfl⟩
    have hp1 : parseNum (d1 ++ '.' :: (d2 ++ '.' :: (d3 ++ rest))) =
        some (d1, '.' :: (d2 ++ '.' :: (d3 ++ rest))) :=
      (parseNum_spec _ _ _).mpr ⟨rfl, hne1, hd1, fun c hc => by
        rw [List.head?_cons, Option.some.injEq] at hc
        subst hc
        decide⟩
    have hp2 : parseNum (d2 ++ '.' :: (d3 ++ rest)) =
        some (d2, '.' :: (d3 ++ rest)) :=
      (parseNum_spec _ _ _).mpr ⟨rfl, hne2, hd2, fun c hc => by
        rw [List.head?_cons, Option.some.injEq] at hc
        subst hc
        decide⟩
    have hp3 : parseNum (d3 ++ rest) = some (d3, rest) :=
      (parseNum_spec _ _ _).mpr ⟨rfl, hne3, hd3, hrest⟩
    have e1 : expectDot ('.' :: (d2 ++ '.' :: (d3 ++ rest))) =
        some (d2 ++ '.' :: (d3 ++ rest)) := rfl
    have e2 : expectDot ('.' :: (d3 ++ rest)) = some (d3 ++ rest) := rfl
    unfold get_release_version
    simp only [hp1, e1, hp2, e2, hp3]

theorem strip_concat_newline (l : List Char) :
    stripTrailingNewline (l ++ ['\n']) = l := by
  unfold stripTrailingNewline
  rw [if_pos (List.getLast?_concat l), List.dropLast_concat]

theorem pattern_body_concat (a n ds : List Char) (c : Char) :
    a ++ 'p' :: (n ++ '.' :: (ds ++ [c])) = (a ++ 'p' :: (n ++ '.' :: ds)) ++ [c] := by
  simp [List.cons_append, List.append_assoc]

theorem strip_of_pattern_nonewline (a n d : List Char)
    (hned : d ≠ []) (hdd : ∀ c ∈ d, c.isDigit = true) :
    stripTrailingNewline (a ++ 'p' :: (n ++ '.' :: d)) = a ++ 'p' :: (n ++ '.' :: d) := by
  rcases d.eq_nil_or_concat' with rfl | ⟨ds, c, rfl⟩
  · exact absurd rfl hned
  · have hc : c.isDigit = true := hdd c (by simp)
    have hcn : ¬ (some c = some '\n') := by
      intro hcc
      rw [Option.some.injEq] at hcc
      subst hcc
      exact absurd hc (by decide)
    rw [pattern_body_concat]
    unfold stripTrailingNewline
    rw [List.getLast?_concat, if_neg hcn]

theorem get_build_number_spec (cs : List Char) (b : Nat) :
    get_build_number cs = some b ↔ buildNumberPatternNewline cs b := by
  constructor
  · intro h
    unfold get_build_number at h
    split at h
    · exact absurd h (by simp)
    rename_i d r1 hp1
    split at h
    · exact absurd h (by simp)
    rename_i r2 hdot
    split at h
    · exact absurd h (by simp)
    rename_i n r3 hp2
    split at h
    · rename_i c rest
      by_cases hc : c = 'p'
      · subst hc
        rw [if_pos rfl] at h
        by_cases hall : rest.all (fun x => x != '\n') = true
        · rw [if_pos hall, Option.some.injEq] at h
          obtain ⟨hcs1, hned, hdd, _⟩ :=
            (parseNum_spec (stripTrailingNewline cs).reverse d r1).mp hp1
          have hr1 := (expectDot_spec r1 r2).mp hdot
          obtain ⟨hcs2, hnen, hdn, _⟩ := (parseNum_spec r2 n ('p' :: rest)).mp hp2
          have hstrip : stripTrailingNewline cs =
              rest.reverse ++ 'p' :: (n.reverse ++ '.' :: d.reverse) := by
            have hrv : (stripTrailingNewline cs).reverse =
                d ++ '.' :: (n ++ 'p' :: rest) := by
              rw [hcs1, hr1, hcs2]
            calc stripTrailingNewline cs
                = (stripTrailingNewline cs).reverse.reverse :=
                  (List.reverse_reverse _).symm
              _ = (d ++ '.' :: (n ++ 'p' :: rest)).reverse := by rw [hrv]
              _ = rest.reverse ++ 'p' :: (n.reverse ++ '.' :: d.reverse) := by
                  simp [List.reverse_append, List.append_assoc]
          have hrestnl : ∀ x ∈ rest.reverse, x ≠ '\n' := by
            intro x hx
            have hb2 := List.all_eq_true.mp hall x (List.mem_reverse.mp hx)
            simpa using hb2
          by_cases hlast : cs.getLast? = some '\n'
          · rcases cs.eq_nil_or_concat' with rfl | ⟨L, x, rfl⟩
            · simp at hlast
            · rw [List.getLast?_concat, Option.some.injEq] at hlast
              subst hlast
              rw [strip_concat_newline] at hstrip
              refine ⟨rest.reverse, n.reverse, d.reverse, ['\n'], ?_, Or.inr rfl, hrestnl,
                by simpa using hnen,
                (fun x hx => hdn x (List.mem_reverse.mp hx)),
                by simpa using hned,
                (fun x hx => hdd x (List.mem_reverse.mp hx)), h.symm⟩
              rw [hstrip]
              simp [List.cons_append, List.append_assoc]
          · have hstrip2 : stripTrailingNewline cs = cs := by
              unfold stripTrailingNewline
              rw [if_neg hlast]
            rw [hstrip2] at hstrip
            refine ⟨rest.reverse, n.reverse, d.reverse, [], ?_, Or.inl rfl, hrestnl,
              by simpa using hnen,
              (fun x hx => hdn x (List.mem_reverse.mp hx)),
              by simpa using hned,
              (fun x hx => hdd x (List.mem_reverse.mp hx)), h.symm⟩
            rw [hstrip]
            simp
        · rw [if_neg hall] at h
          exact absurd h (by simp)
      · rw [if_neg hc] at h
        exact absurd h (by simp)
    · exact absurd h (by simp)
  · rintro ⟨a, n, d, t, hcs, ht, ha, hnen, hdn, hned, hdd, hb⟩
    have hstrip : stripTrailingNewline cs = a ++ 'p' :: (n ++ '.' :: d) := by
      rcases ht with rfl | rfl
      · rw [hcs, List.append_nil]
        exact strip_of_pattern_nonewline a n d hned hdd
      · rw [hcs]
        have hre : a ++ 'p' :: (n ++ '.' :: (d ++ ['\n'])) =
            (a ++ 'p' :: (n ++ '.' :: d)) ++ ['\n'] := by
          simp [List.cons_append, List.append_assoc]
        rw [hre, strip_concat_newline]
    have hrev : (stripTrailingNewline cs).reverse =
        d.reverse ++ '.' :: (n.reverse ++ 'p' :: a.reverse) := by
      rw [hstrip]
      simp [List.reverse_append, List.append_assoc]
    have hp1 : parseNum (d.reverse ++ '.' :: (n.reverse ++ 'p' :: a.reverse)) =
        some (d.reverse, '.' :: (n.reverse ++ 'p' :: a.reverse)) :=
      (parseNum_spec _ _ _).mpr ⟨rfl, by simpa using hned,
        fun c hc => hdd c (List.mem_reverse.mp hc),
        fun c hc => by
          rw [List.head?_cons, Option.some.injEq] at hc
          subst hc
          decide⟩
    have hp2 : parseNum (n.reverse ++ 'p' :: a.reverse) =
        some (n.reverse, 'p' :: a.reverse) :=
      (parseNum_spec _ _ _).mpr ⟨rfl, by simpa using hnen,
        fun c hc => hdn c (List.mem_reverse.mp hc),
        fun c hc => by
          rw [List.head?_cons, Option.some.injEq] at hc
          subst hc
          decide⟩
    have e1 : expectDot ('.' :: (n.reverse ++ 'p' :: a.reverse)) =
        some (n.reverse ++ 'p' :: a.reverse) := rfl
    have hall : a.reverse.all (fun x => x != '\n') = true :=
      List.all_eq_true.mpr (fun x hx => by
        simpa using ha x (List.mem_reverse.mp hx))
    unfold get_build_number
    rw [hrev, hp1]
    simp [e1, hp2, hall, hb]

/-- C5 counterexample: the build parser accepts `"…p0.814\n"` — Python's
`$` matches before the one trailing newline — although that string does
not match the claim's pattern (it does not end in a trailing integer),
so "for every string not matching the respective pattern, each parser
raises a parse error" is false of the program as the claim states it. -/
theorem C5_counterexample :
    get_build_number c5Newline = some 814 ∧ ¬ buildNumberPattern c5Newline 814 := by
  constructor
  · rfl
  · rintro ⟨a, n, d, hcs, hnen, hdn, hned, hdd, hb⟩
    rcases d.eq_nil_or_concat' with rfl | ⟨ds, c, rfl⟩
    · exact absurd rfl hned
    · have hc : c.isDigit = true := hdd c (by simp)
      have hlast : c5Newline.getLast? = some c := by
        rw [hcs, pattern_body_concat, List.getLast?_concat]
      have hnl : c5Newline.getLast? = some '\n' := by rfl
      rw [hlast, Option.some.injEq] at hnl
      subst hnl
      exact absurd hc (by decide)

/-- C5 (amended): for every version string of the form `X.Y.Z...` the
release-version parser returns exactly `"X.Y.Z"` and fails on every
other string; the build-number parser returns exactly the integer `B`
for precisely the strings that — after discarding at most one trailing
newline, per Python's `$` — end in `p<digits>.B` with no newline before
the `p` marker, per Python's `.`, and fails on every other string. -/
theorem C5_version_parser_python :
    ∀ cs : List Char,
      (∀ r, get_release_version cs = some r ↔ releaseVersionPattern cs r) ∧
      (∀ b, get_build_number cs = some b ↔ buildNumberPatternNewline cs b) :=
  fun cs =>
    ⟨fun r => get_release_version_spec cs r, fun b => get_build_number_spec cs b⟩

/-! ## Lexicographic-order facts for the final `max` key -/

theorem ltStr_irrefl : ∀ s : List Char, ltStr s s = false := by
  intro s
  induction s with
  | nil => rfl
  | cons a as ih => simp [ltStr, ih]

theorem ltStr_ge_trans :
    ∀ a b c : List Char, ltStr a b = false → ltStr b c = false → ltStr a c = false := by
  intro a
  induction a with
  | nil =>
    intro b c hab hbc
    cases b with
    | nil => exact hbc
    | cons y ys => simp [ltStr] at hab
  | cons x xs ih =>
    intro b c hab hbc
    cases c with
    | nil => rfl
    | cons z zs =>
      cases b with
      | nil => simp [ltStr] at hbc
      | cons y ys =>
        simp only [ltStr] at hab hbc ⊢
        split_ifs at hab hbc ⊢ <;>
          first
          | rfl
          | omega
          | exact ih ys zs hab hbc

theorem ltStr_lt_ge :
    ∀ a b c : List Char, ltStr a c = true → ltStr b c = false → ltStr b a = false := by
  intro a
  induction a with
  | nil =>
    intro b c hac hbc
    cases c with
    | nil => simp [ltStr] at hac
    | cons z zs =>
      cases b with
      | nil => simp [ltStr] at hbc
      | cons y ys => rfl
  | cons x xs ih =>
    intro b c hac hbc
    cases c with
    | nil => simp [ltStr] at hac
    | cons z zs =>
      cases b with
      | nil => simp [ltStr] at hbc
      | cons y ys =>
        simp only [ltStr] at hac hbc ⊢
        split_ifs at hac hbc ⊢ <;>
          first
          | rfl
          | omega
          | exact ih ys zs hac hbc

/-! ## Decoding the `Except` wrappers -/

theorem getBuildE_ok (v : List Char) (b : Nat) :
    getBuildE v = .ok b ↔ get_build_number v = some b := by
  unfold getBuildE
  cases h : get_build_number v <;> simp

theorem getReleaseE_ok (v r : List Char) :
    getReleaseE v = .ok r ↔ get_release_version v = some r := by
  unfold getReleaseE
  cases h : get_release_version v <;> simp

/-! ## Membership in the partitioned lists -/

theorem mem_activated_parcels (parcels : List Parcel) (name : String) (p : Parcel) :
    p ∈ activated_parcels parcels name ↔
      p ∈ parcels ∧ p.product = name ∧ p.stage = "ACTIVATED" := by
  simp [activated_parcels, List.mem_filter, Bool.and_eq_true, and_assoc]

theorem mem_other_parcels (parcels : List Parcel) (name : String) (p : Parcel) :
    p ∈ other_parcels parcels name ↔
      p ∈ parcels ∧ p.product = name ∧ p.stage ≠ "ACTIVATED" := by
  simp [other_parcels, List.mem_filter, Bool.and_eq_true, bne_iff_ne, and_assoc]

/-! ## The `max` fold -/

theorem maxByAux_spec {κ : Type} (key : Parcel → Except Err κ) (lt : κ → κ → Bool)
    (hirr : ∀ k, lt k k = false)
    (hge : ∀ a b c, lt a b = false → lt b c = false → lt a c = false)
    (hmix : ∀ a b c, lt a c = true → lt b c = false → lt b a = false) :
    ∀ (ps : List Parcel) (best : Parcel) (bkey : κ) (r : Parcel),
      key best = .ok bkey → maxByAux key lt best bkey ps = .ok r →
      (r = best ∨ r ∈ ps) ∧
        ∃ rk, key r = .ok rk ∧ lt rk bkey = false ∧
          ∀ p ∈ ps, ∃ pk, key p = .ok pk ∧ lt rk pk = false := by
  intro ps
  induction ps with
  | nil =>
    intro best bkey r hb h
    unfold maxByAux at h
    rw [Except.ok.injEq] at h
    subst h
    exact ⟨Or.inl rfl, bkey, hb, hirr bkey, by simp⟩
  | cons p ps ih =>
    intro best bkey r hb h
    unfold maxByAux at h
    cases hk : key p with
    | error e => rw [hk] at h; exact absurd h (by simp)
    | ok k =>
      rw [hk] at h
      simp only at h
      by_cases hlt : lt bkey k = true
      · rw [if_pos hlt] at h
        obtain ⟨hmem, rk, hkr, hge1, hall⟩ := ih p k r hk h
        refine ⟨?_, rk, hkr, hmix bkey rk k hlt hge1, ?_⟩
        · rcases hmem with rfl | hm
          · exact Or.inr (List.mem_cons_self _ _)
          · exact Or.inr (List.mem_cons_of_mem _ hm)
        · intro q hq
          rcases List.mem_cons.mp hq with rfl | hq2
          · exact ⟨k, hk, hge1⟩
          · exact hall q hq2
      · rw [if_neg hlt] at h
        obtain ⟨hmem, rk, hkr, hge1, hall⟩ := ih best bkey r hb h
        have hbk : lt bkey k = false := by
          cases hbk2 : lt bkey k
          · rfl
          · exact absurd hbk2 hlt
        refine ⟨?_, rk, hkr, hge1, ?_⟩
        · rcases hmem with rfl | hm
          · exact Or.inl rfl
          · exact Or.inr (List.mem_cons_of_mem _ hm)
        · intro q hq
          rcases List.mem_cons.mp hq with rfl | hq2
          · exact ⟨k, hk, hge rk bkey k hge1 hbk⟩
          · exact hall q hq2

theorem maxByAux_ok_of_keys {κ : Type} (key : Parcel → Except Err κ) (lt : κ → κ → Bool) :
    ∀ (ps : List Parcel) (best : Parcel) (bkey : κ),
      (∀ p ∈ ps, ∃ k, key p = .ok k) →
      ∃ r, maxByAux key lt best bkey ps = .ok r := by
  intro ps
  induction ps with
  | nil => exact fun best bkey _ => ⟨best, rfl⟩
  | cons p ps ih =>
    intro best bkey hks
    obtain ⟨k, hk⟩ := hks p (List.mem_cons_self _ _)
    have hrest : ∀ q ∈ ps, ∃ k, key q = .ok k :=
      fun q hq => hks q (List.mem_cons_of_mem _ hq)
    unfold maxByAux
    rw [hk]
    simp only
    by_cases hlt : lt bkey k = true
    · rw [if_pos hlt]
      exact ih p k hrest
    · rw [if_neg hlt]
      exact ih best bkey hrest

/-! ## The filtering comprehension -/

theorem filterM_mem (pred : Parcel → Except Err Bool) :
    ∀ (ps l : List Parcel), filterM pred ps = .ok l →
      ∀ x ∈ l, x ∈ ps ∧ pred x = .ok true := by
  intro ps
  induction ps with
  | nil =>
    intro l h x hx
    unfold filterM at h
    rw [Except.ok.injEq] at h
    subst h
    simp at hx
  | cons p ps ih =>
    intro l h x hx
    unfold filterM at h
    cases hp : pred p with
    | error e => rw [hp] at h; exact absurd h (by simp)
    | ok b =>
      rw [hp] at h
      simp only at h
      cases hf : filterM pred ps with
      | error e => rw [hf] at h; exact absurd h (by simp)
      | ok rest =>
        rw [hf] at h
        simp only [Except.ok.injEq] at h
        subst h
        cases b with
        | true =>
          rw [if_pos rfl] at hx
          rcases List.mem_cons.mp hx with rfl | hx2
          · exact ⟨List.mem_cons_self _ _, hp⟩
          · obtain ⟨h1, h2⟩ := ih rest hf x hx2
            exact ⟨List.mem_cons_of_mem _ h1, h2⟩
        | false =>
          rw [if_neg (by simp)] at hx
          obtain ⟨h1, h2⟩ := ih rest hf x hx
          exact ⟨List.mem_cons_of_mem _ h1, h2⟩

theorem filterM_eq_nil (pred : Parcel → Except Err Bool) :
    ∀ ps : List Parcel, filterM pred ps = .ok [] ↔ ∀ x ∈ ps, pred x = .ok false := by
  intro ps
  induction ps with
  | nil => simp [filterM]
  | cons p ps ih =>
    constructor
    · intro h x hx
      unfold filterM at h
      cases hp : pred p with
      | error e => rw [hp] at h; exact absurd h (by simp)
      | ok b =>
        rw [hp] at h
        simp only at h
        cases hf : filterM pred ps with
        | error e => rw [hf] at h; exact absurd h (by simp)
        | ok rest =>
          rw [hf] at h
          simp only [Except.ok.injEq] at h
          cases b with
          | true => simp at h
          | false =>
            rw [if_neg (by simp)] at h
            subst h
            rcases List.mem_cons.mp hx with rfl | hx2
            · exact hp
            · exact (ih.mp hf) x hx2
    · intro hall
      have hp : pred p = .ok false := hall p (List.mem_cons_self _ _)
      have hf : filterM pred ps = .ok [] :=
        ih.mpr (fun x hx => hall x (List.mem_cons_of_mem _ hx))
      unfold filterM
      rw [hp, hf]
      simp

/-! ## The candidate predicate -/

theorem candPred_true (g p : Parcel) (h : candPred g p = .ok true) :
    ∃ rp bp bg,
      get_release_version p.version = some rp ∧
      get_release_version g.version = some rp ∧
      get_build_number p.version = some bp ∧
      get_build_number g.version = some bg ∧ bg < bp := by
  unfold candPred release_versions_match getReleaseE getBuildE at h
  cases hrp : get_release_version p.version with
  | none => rw [hrp] at h; exact absurd h (by simp)
  | some rp =>
    rw [hrp] at h
    cases hrg : get_release_version g.version with
    | none => rw [hrg] at h; exact absurd h (by simp)
    | some rg =>
      rw [hrg] at h
      simp only at h
      by_cases hr : rp = rg
      · subst hr
        have hd : decide (rp = rp) = true := by simp
        rw [hd] at h
        simp only at h
        cases hbp : get_build_number p.version with
        | none => rw [hbp] at h; exact absurd h (by simp)
        | some bp =>
          rw [hbp] at h
          cases hbg : get_build_number g.version with
          | none => rw [hbg] at h; exact absurd h (by simp)
          | some bg =>
            rw [hbg] at h
            simp only [Except.ok.injEq] at h
            exact ⟨rp, bp, bg, rfl, rfl, rfl, rfl, of_decide_eq_true h⟩
      · have hd : decide (rp = rg) = false := by simp [hr]
        rw [hd] at h
        simp at h

theorem candPred_eval (g p : Parcel) (rp rg : List Char) (bp bg : Nat)
    (h1 : get_release_version p.version = some rp)
    (h2 : get_release_version g.version = some rg)
    (h3 : get_build_number p.version = some bp)
    (h4 : get_build_number g.version = some bg) :
    candPred g p = .ok (decide (rp = rg) && decide (bg < bp)) := by
  unfold candPred release_versions_match getReleaseE getBuildE
  rw [h1, h2]
  simp only
  by_cases hr : rp = rg
  · subst hr
    have hd : decide (rp = rp) = true := by simp
    rw [hd]
    simp only [Bool.true_and]
    rw [h3, h4]
  · have hd : decide (rp = rg) = false := by simp [hr]
    rw [hd]
    simp

/-! ## The activated baseline -/

theorem greatest_activated_spec (parcels : List Parcel) (name : String) (g : Parcel)
    (h : greatest_activated parcels name = .ok g) :
    g ∈ activated_parcels parcels name ∧
      ∃ bg, get_build_number g.version = some bg ∧
        ∀ q ∈ activated_parcels parcels name,
          ∃ bq, get_build_number q.version = some bq ∧ bq ≤ bg := by
  unfold greatest_activated at h
  cases hact : activated_parcels parcels name with
  | nil => rw [hact] at h; exact absurd h (by simp)
  | cons a as =>
    rw [hact] at h
    unfold pyMax1 at h
    simp only at h
    cases hka : getBuildE a.version with
    | error e => rw [hka] at h; exact absurd h (by simp)
    | ok ka =>
      rw [hka] at h
      simp only at h
      have hspec := maxByAux_spec (fun p => getBuildE p.version)
        (fun a b => decide (a < b))
        (by intro k; simp)
        (by intro a b c hab hbc; simp at hab hbc ⊢; omega)
        (by intro a b c hac hbc; simp at hac hbc ⊢; omega)
        as a ka g hka h
      obtain ⟨hmem, rk, hkr, hge1, hall⟩ := hspec
      constructor
      · rcases hmem with rfl | hm
        · exact List.mem_cons_self _ _
        · exact List.mem_cons_of_mem _ hm
      · refine ⟨rk, (getBuildE_ok _ _).mp hkr, ?_⟩
        intro q hq
        rcases List.mem_cons.mp hq with rfl | hq2
        · refine ⟨ka, (getBuildE_ok _ _).mp hka, ?_⟩
          simp at hge1
          omega
        · obtain ⟨pk, hpk, hple⟩ := hall q hq2
          refine ⟨pk, (getBuildE_ok _ _).mp hpk, ?_⟩
          simp at hple
          omega

/-! ## Decoding a successful selection -/

theorem get_best_ok_some (parcels : List Parcel) (name : String) (P : Parcel)
    (h : get_best_upgrade_candidate_parcel parcels name = .ok (some P)) :
    ∃ g l, greatest_activated parcels name = .ok g ∧
      filterM (candPred g) (other_parcels parcels name) = .ok l ∧
      P ∈ l ∧ ∀ q ∈ l, ltStr P.version q.version = false := by
  unfold get_best_upgrade_candidate_parcel filtered_candidates at h
  cases hg : greatest_activated parcels name with
  | error e => rw [hg] at h; exact absurd h (by simp)
  | ok g =>
    rw [hg] at h
    simp only at h
    cases hf : filterM (candPred g) (other_parcels parcels name) with
    | error e => rw [hf] at h; exact absurd h (by simp)
    | ok l =>
      rw [hf] at h
      cases l with
      | nil => exact absurd h (by simp)
      | cons c cs =>
        simp only at h
        cases hm : pyMax1 (fun p => Except.ok p.version) ltStr c cs with
        | error e => rw [hm] at h; exact absurd h (by simp)
        | ok best =>
          rw [hm] at h
          simp only [Except.ok.injEq, Option.some.injEq] at h
          subst h
          unfold pyMax1 at hm
          simp only at hm
          have hspec := maxByAux_spec (fun p => Except.ok p.version) ltStr
            ltStr_irrefl ltStr_ge_trans ltStr_lt_ge
            cs c c.version best rfl hm
          obtain ⟨hmem, rk, hkr, hge1, hall⟩ := hspec
          rw [Except.ok.injEq] at hkr
          subst hkr
          refine ⟨g, c :: cs, rfl, hf, ?_, ?_⟩
          · rcases hmem with rfl | hm2
            · exact List.mem_cons_self _ _
            · exact List.mem_cons_of_mem _ hm2
          · intro q hq
            rcases List.mem_cons.mp hq with rfl | hq2
            · exact hge1
            · obtain ⟨pk, hpk, hple⟩ := hall q hq2
              rw [Except.ok.injEq] at hpk
              subst hpk
              exact hple

/-! ## The candidate-selector claims -/

/-- C1: whenever `get_best_upgrade_candidate_parcel` returns a parcel
`P`, there is an activated baseline `g` of the product — the `ACTIVATED`
parcel with the greatest build number — such that `P`'s release version
equals `g`'s and `P`'s build number is strictly greater than `g`'s. -/
theorem C1_candidate_matches_baseline (parcels : List Parcel) (name : String) (P : Parcel)
    (h : get_best_upgrade_candidate_parcel parcels name = .ok (some P)) :
    ∃ g, greatest_activated parcels name = .ok g ∧
      g ∈ parcels ∧ g.product = name ∧ g.stage = "ACTIVATED" ∧
      (∀ q ∈ parcels, q.product = name → q.stage = "ACTIVATED" →
        ∃ bq bg, get_build_number q.version = some bq ∧
          get_build_number g.version = some bg ∧ bq ≤ bg) ∧
      (∃ r, get_release_version P.version = some r ∧
        get_release_version g.version = some r) ∧
      (∃ bP bg, get_build_number P.version = some bP ∧
        get_build_number g.version = some bg ∧ bg < bP) := by
  obtain ⟨g, l, hg, hf, hPl, _⟩ := get_best_ok_some parcels name P h
  obtain ⟨hgact, bg, hbg, hmax⟩ := greatest_activated_spec parcels name g hg
  obtain ⟨hgmem, hgprod, hgstage⟩ := (mem_activated_parcels parcels name g).mp hgact
  obtain ⟨_, hcp⟩ := filterM_mem (candPred g) (other_parcels parcels name) l hf P hPl
  obtain ⟨rp, bp, bg2, hrp, hrg, hbp, hbg2, hlt⟩ := candPred_true g P hcp
  refine ⟨g, hg, hgmem, hgprod, hgstage, ?_, ⟨rp, hrp, hrg⟩, ⟨bp, bg2, hbp, hbg2, hlt⟩⟩
  intro q hq hprod hstage
  obtain ⟨bq, hbq, hle⟩ :=
    hmax q ((mem_activated_parcels parcels name q).mpr ⟨hq, hprod, hstage⟩)
  exact ⟨bq, bg, hbq, hbg, hle⟩

/-- Witness for C1 at the spec's §8 scenario (activated build 800,
same-release candidate 810, cross-release 900): the selector picks the
810 parcel and the conclusion of C1 holds there. -/
theorem C1_witness :
    ∃ g, greatest_activated w1Parcels "KUDU" = .ok g ∧
      g ∈ w1Parcels ∧ g.product = "KUDU" ∧ g.stage = "ACTIVATED" ∧
      (∀ q ∈ w1Parcels, q.product = "KUDU" → q.stage = "ACTIVATED" →
        ∃ bq bg, get_build_number q.version = some bq ∧
          get_build_number g.version = some bg ∧ bq ≤ bg) ∧
      (∃ r, get_release_version w1Cand.version = some r ∧
        get_release_version g.version = some r) ∧
      (∃ bP bg, get_build_number w1Cand.version = some bP ∧
        get_build_number g.version = some bg ∧ bg < bP) :=
  C1_candidate_matches_baseline w1Parcels "KUDU" w1Cand (by rfl)

/-- C2: whenever the filtered candidate list is non-empty the selector
returns the member with the greatest raw version string under
lexicographic comparison; and at a concrete input whose build numbers
have different digit counts the lexicographic winner (build 9) is
returned even though another filtered candidate has the greater numeric
build (10). -/
theorem C2_lexicographic_selection :
    (∀ (parcels : List Parcel) (name : String) (l : List Parcel),
      filtered_candidates parcels name = .ok l → l ≠ [] →
      ∃ P, get_best_upgrade_candidate_parcel parcels name = .ok (some P) ∧
        P ∈ l ∧ ∀ q ∈ l, ltStr P.version q.version = false) ∧
    (get_best_upgrade_candidate_parcel c2Parcels "KUDU" = .ok (some c2P9) ∧
      filtered_candidates c2Parcels "KUDU" = .ok [c2P9, c2P10] ∧
      get_build_number c2P9.version = some 9 ∧
      get_build_number c2P10.version = some 10 ∧
      ltStr c2P10.version c2P9.version = true) := by
  constructor
  · intro parcels name l hf hne
    have hsome : ∃ P, get_best_upgrade_candidate_parcel parcels name = .ok (some P) := by
      unfold get_best_upgrade_candidate_parcel
      rw [hf]
      cases l with
      | nil => exact absurd rfl hne
      | cons c cs =>
        simp only
        obtain ⟨r, hr⟩ := maxByAux_ok_of_keys (fun p => Except.ok p.version) ltStr
          cs c c.version (fun p _ => ⟨p.version, rfl⟩)
        unfold pyMax1
        simp only
        rw [hr]
        exact ⟨r, rfl⟩
    obtain ⟨P, hP⟩ := hsome
    obtain ⟨g, l2, hg, hf2, hPl, hmaxl⟩ := get_best_ok_some parcels name P hP
    have hfl : filterM (candPred g) (other_parcels parcels name) = .ok l := by
      unfold filtered_candidates at hf
      rw [hg] at hf
      simpa using hf
    rw [hfl] at hf2
    rw [Except.ok.injEq] at hf2
    subst hf2
    exact ⟨P, hP, hPl, hmaxl⟩
  · exact ⟨by rfl, by rfl, by rfl, by rfl, by rfl⟩

/-- Witness for C2's general part at the concrete lex-vs-numeric input:
the filtered list is non-empty and the returned parcel is its
lexicographic maximum. -/
theorem C2_witness :
    ∃ P, get_best_upgrade_candidate_parcel c2Parcels "KUDU" = .ok (some P) ∧
      P ∈ [c2P9, c2P10] ∧ ∀ q ∈ [c2P9, c2P10], ltStr P.version q.version = false :=
  C2_lexicographic_selection.1 c2Parcels "KUDU" [c2P9, c2P10] (by rfl) (by simp)

/-- C3: with an activated baseline `g` present and every parcel of the
product parseable, the selector returns `None` exactly when every
non-activated parcel of the product has a different release version or a
build number at most the baseline's. -/
theorem C3_none_iff_no_candidate (parcels : List Parcel) (name : String) (g : Parcel)
    (hparse : ∀ p ∈ parcels, p.product = name →
      (get_release_version p.version).isSome = true ∧
      (get_build_number p.version).isSome = true)
    (hg : greatest_activated parcels name = .ok g) :
    (get_best_upgrade_candidate_parcel parcels name = .ok none ↔
      ∀ q ∈ parcels, q.product = name → q.stage ≠ "ACTIVATED" →
        get_release_version q.version ≠ get_release_version g.version ∨
        ∃ bq bg, get_build_number q.version = some bq ∧
          get_build_number g.version = some bg ∧ bq ≤ bg) := by
  obtain ⟨hgact, bg, hbg, _⟩ := greatest_activated_spec parcels name g hg
  obtain ⟨hgmem, hgprod, _⟩ := (mem_activated_parcels parcels name g).mp hgact
  obtain ⟨rg, hrg⟩ := Option.isSome_iff_exists.mp (hparse g hgmem hgprod).1
  have step1 : get_best_upgrade_candidate_parcel parcels name = .ok none ↔
      filterM (candPred g) (other_parcels parcels name) = .ok [] := by
    unfold get_best_upgrade_candidate_parcel filtered_candidates
    rw [hg]
    simp only
    cases hf : filterM (candPred g) (other_parcels parcels name) with
    | error e => simp
    | ok l =>
      cases l with
      | nil => simp
      | cons c cs =>
        simp only
        cases hm : pyMax1 (fun p => Except.ok p.version) ltStr c cs with
        | error e => simp
        | ok best => simp
  rw [step1, filterM_eq_nil]
  constructor
  · intro hall q hqmem hqprod hqstage
    have hfq := hall q
      ((mem_other_parcels parcels name q).mpr ⟨hqmem, hqprod, hqstage⟩)
    obtain ⟨hrq0, hbq0⟩ := hparse q hqmem hqprod
    obtain ⟨rq, hrq⟩ := Option.isSome_iff_exists.mp hrq0
    obtain ⟨bq, hbq⟩ := Option.isSome_iff_exists.mp hbq0
    rw [candPred_eval g q rq rg bq bg hrq hrg hbq hbg, Except.ok.injEq,
      Bool.and_eq_false_iff] at hfq
    rcases hfq with hne | hle
    · left
      rw [hrq, hrg]
      simp only [decide_eq_false_iff_not] at hne
      simp [hne]
    · right
      simp only [decide_eq_false_iff_not] at hle
      exact ⟨bq, bg, hbq, hbg, by omega⟩
  · intro hall q hqo
    obtain ⟨hqmem, hqprod, hqstage⟩ := (mem_other_parcels parcels name q).mp hqo
    obtain ⟨hrq0, hbq0⟩ := hparse q hqmem hqprod
    obtain ⟨rq, hrq⟩ := Option.isSome_iff_exists.mp hrq0
    obtain ⟨bq, hbq⟩ := Option.isSome_iff_exists.mp hbq0
    rw [candPred_eval g q rq rg bq bg hrq hrg hbq hbg]
    rcases hall q hqmem hqprod hqstage with hne | ⟨bq', bg', hbq', hbg', hle⟩
    · rw [hrq, hrg] at hne
      have hner : rq ≠ rg := fun hc => hne (by rw [hc])
      simp [hner]
    · rw [hbq] at hbq'
      rw [hbg] at hbg'
      rw [Option.some.injEq] at hbq' hbg'
      subst hbq'
      subst hbg'
      have hnlt : ¬ bg < bq := by omega
      simp [hnlt]

/-- Witness for C3 at a concrete collection (activated build 800, a
same-release downgrade 700 and a cross-release 900): the
already-up-to-date equivalence holds there. -/
theorem C3_witness :
    get_best_upgrade_candidate_parcel c3Parcels "KUDU" = .ok none ↔
      ∀ q ∈ c3Parcels, q.product = "KUDU" → q.stage ≠ "ACTIVATED" →
        get_release_version q.version ≠ get_release_version c3Act.version ∨
        ∃ bq bg, get_build_number q.version = some bq ∧
          get_build_number c3Act.version = some bg ∧ bq ≤ bg :=
  C3_none_iff_no_candidate c3Parcels "KUDU" c3Act (by decide) (by rfl)

/-- C4: when no parcel of the product is `ACTIVATED`, the selector raises
the fatal "no active parcel" exception instead of returning a value. -/
theorem C4_no_active_parcel (parcels : List Parcel) (name : String)
    (h : ∀ p ∈ parcels, p.product = name → p.stage ≠ "ACTIVATED") :
    get_best_upgrade_candidate_parcel parcels name = .error (.noActiveParcel name) := by
  have hnil : activated_parcels parcels name = [] := by
    unfold activated_parcels
    rw [List.filter_eq_nil_iff]
    intro p hp
    simp only [Bool.and_eq_true, beq_iff_eq, not_and]
    exact fun hprod => by simpa using h p hp hprod
  unfold get_best_upgrade_candidate_parcel filtered_candidates greatest_activated
  rw [hnil]

/-- Witness for C4: a collection whose only `KUDU` parcel is
`DOWNLOADED` (the sole `ACTIVATED` parcel belongs to another product)
makes the selector fail with the "no active parcel" exception. -/
theorem C4_witness :
    get_best_upgrade_candidate_parcel c4Parcels "KUDU" = .error (.noActiveParcel "KUDU") :=
  C4_no_active_parcel c4Parcels "KUDU" (by decide)

/-! ## Stage-waiter lemmas -/

theorem waitAux_timeout_of (fetch : Nat → PState) (prod : String) (ver : List Char)
    (tgt : String) (mt : Nat) :
    ∀ (n attempt : Nat), 1 ≤ attempt →
      (∀ i, attempt ≤ i → i < attempt + n → (fetch i).stage ≠ tgt ∧ (fetch i).errors = []) →
      waitAux fetch prod ver tgt mt n attempt = .timeout prod ver tgt mt (attempt - 1 + n) := by
  intro n
  induction n with
  | zero =>
    intro attempt _ _
    unfold waitAux
    simp
  | succ n ih =>
    intro attempt h1 hno
    obtain ⟨hs, he⟩ := hno attempt (le_refl _) (by omega)
    unfold waitAux
    rw [if_neg hs, if_neg (by simp [he])]
    rw [ih (attempt + 1) (by omega) (fun i hi1 hi2 => hno i (by omega) (by omega))]
    have harith : attempt + 1 - 1 + n = attempt - 1 + (n + 1) := by omega
    rw [harith]

theorem waitAux_pollCount_le (fetch : Nat → PState) (prod : String) (ver : List Char)
    (tgt : String) (mt : Nat) :
    ∀ (n attempt : Nat), 1 ≤ attempt →
      pollCount (waitAux fetch prod ver tgt mt n attempt) ≤ attempt - 1 + n := by
  intro n
  induction n with
  | zero =>
    intro attempt _
    unfold waitAux pollCount
    simp
  | succ n ih =>
    intro attempt h1
    unfold waitAux
    by_cases hs : (fetch attempt).stage = tgt
    · rw [if_pos hs]
      simp only [pollCount]
      omega
    · rw [if_neg hs]
      by_cases he : (fetch attempt).errors ≠ []
      · rw [if_pos he]
        simp only [pollCount]
        omega
      · rw [if_neg he]
        have := ih (attempt + 1) (by omega)
        omega

theorem waitAux_exit (fetch : Nat → PState) (prod : String) (ver : List Char)
    (tgt : String) (mt : Nat) :
    ∀ (n attempt j : Nat), attempt ≤ j → j < attempt + n →
      (∀ i, attempt ≤ i → i < j → (fetch i).stage ≠ tgt ∧ (fetch i).errors = []) →
      waitAux fetch prod ver tgt mt n attempt =
        (if (fetch j).stage = tgt then .success j
         else if (fetch j).errors ≠ [] then .remoteError j (fetch j).errors
         else waitAux fetch prod ver tgt mt (n - (j - attempt) - 1) (j + 1)) := by
  intro n
  induction n with
  | zero => intro attempt j h1 h2 _; omega
  | succ n ih =>
    intro attempt j h1 h2 hno
    by_cases hj : attempt = j
    · subst hj
      have harith : n + 1 - (attempt - attempt) - 1 = n := by omega
      rw [harith]
      conv_lhs => rw [waitAux]
    · have hlt : attempt < j := by omega
      obtain ⟨hs, he⟩ := hno attempt (le_refl _) hlt
      conv_lhs => rw [waitAux]
      rw [if_neg hs, if_neg (by simp [he])]
      have harith : n + 1 - (j - attempt) - 1 = n - (j - (attempt + 1)) - 1 := by omega
      rw [harith]
      exact ih (attempt + 1) j (by omega) (by omega)
        (fun i hi1 hi2 => hno i (by omega) hi2)

/-! ## Stage-waiter claims -/

/-- C10: the stage comparison is evaluated before the error check on each
poll: if the loop reaches poll `n` and the re-fetched record's stage
equals the target there, `wait_for_parcel_stage` returns success at that
poll even though that record's error list is non-empty. -/
theorem C10_stage_check_shadows_errors (fetch : Nat → PState) (parcel : Parcel)
    (tgt : String) (mt n : Nat) (h1 : 1 ≤ n) (h2 : n ≤ mt)
    (hpre : ∀ i, 1 ≤ i → i < n → (fetch i).stage ≠ tgt ∧ (fetch i).errors = [])
    (hs : (fetch n).stage = tgt) (_herr : (fetch n).errors ≠ []) :
    wait_for_parcel_stage fetch parcel tgt mt = .success n := by
  unfold wait_for_parcel_stage
  rw [waitAux_exit fetch parcel.product parcel.version tgt mt mt 1 n h1 (by omega) hpre]
  rw [if_pos hs]

/-- Witness for C10: the record reaches `ACTIVATED` on poll 2 while
carrying a non-empty error list, and the waiter returns success at poll
2. -/
theorem C10_witness :
    wait_for_parcel_stage c10Fetch c6Parcel "ACTIVATED" 4 = .success 2 :=
  C10_stage_check_shadows_errors c10Fetch c6Parcel "ACTIVATED" 4 2 (by decide) (by decide)
    (fun i hi1 hi2 => by
      have hne : i ≠ 2 := by omega
      refine ⟨?_, ?_⟩
      · show (c10Fetch i).stage ≠ "ACTIVATED"
        simp [c10Fetch, hne]
      · simp [c10Fetch, hne])
    (by decide) (by decide)

/-- C6 counterexample: a record whose very first poll reports both the
target stage and a non-empty error list makes the waiter return success
instead of raising the remote error the claim demands for that
iteration. -/
theorem C6_counterexample :
    (c6FetchCE 1).errors = ["remote failure"] ∧
    (1 : Nat) ≤ 3 ∧
    wait_for_parcel_stage c6FetchCE c6Parcel "ACTIVATED" 3 = .success 1 ∧
    wait_for_parcel_stage c6FetchCE c6Parcel "ACTIVATED" 3 ≠
      .remoteError 1 ["remote failure"] := by
  refine ⟨rfl, by decide, rfl, by decide⟩

/-- C6 (amended): if the loop reaches poll `n ≤ maxSeconds`, the record
fetched there reports a non-empty error list and its stage differs from
the target, then the waiter raises the remote error carrying that error
detail at that same poll, performing no further polls. -/
theorem C6_remote_error_aborts (fetch : Nat → PState) (parcel : Parcel)
    (tgt : String) (mt n : Nat) (h1 : 1 ≤ n) (h2 : n ≤ mt)
    (hpre : ∀ i, 1 ≤ i → i < n → (fetch i).stage ≠ tgt ∧ (fetch i).errors = [])
    (hs : (fetch n).stage ≠ tgt) (herr : (fetch n).errors ≠ []) :
    wait_for_parcel_stage fetch parcel tgt mt = .remoteError n (fetch n).errors := by
  unfold wait_for_parcel_stage
  rw [waitAux_exit fetch parcel.product parcel.version tgt mt mt 1 n h1 (by omega) hpre]
  rw [if_neg hs, if_pos herr]

/-- Witness for the amended C6: an error list that becomes non-empty on
the third of five allotted polls aborts with the remote error at poll 3
(two polls short of the timeout). -/
theorem C6_witness :
    wait_for_parcel_stage c6FetchW c6Parcel "ACTIVATED" 5 =
      .remoteError 3 ["conn reset"] :=
  C6_remote_error_aborts c6FetchW c6Parcel "ACTIVATED" 5 3 (by decide) (by decide)
    (fun i hi1 hi2 => by
      have hne : i ≠ 3 := by omega
      refine ⟨?_, ?_⟩
      · show (c6FetchW i).stage ≠ "ACTIVATED"
        simp [c6FetchW, hne]
      · simp [c6FetchW, hne])
    (by decide) (by decide)

/-- C7: the waiter always terminates within `maxTime` polls (one per
second), and when the target stage is never reached and no error is ever
reported within those polls it raises the timeout exception naming the
parcel, the target stage and the bound, after exactly `maxTime` poll
attempts. -/
theorem C7_waiter_times_out :
    (∀ (fetch : Nat → PState) (parcel : Parcel) (tgt : String) (mt : Nat),
      pollCount (wait_for_parcel_stage fetch parcel tgt mt) ≤ mt) ∧
    (∀ (fetch : Nat → PState) (parcel : Parcel) (tgt : String) (mt : Nat),
      (∀ i, 1 ≤ i → i ≤ mt → (fetch i).stage ≠ tgt ∧ (fetch i).errors = []) →
      wait_for_parcel_stage fetch parcel tgt mt =
        .timeout parcel.product parcel.version tgt mt mt) := by
  constructor
  · intro fetch parcel tgt mt
    unfold wait_for_parcel_stage
    have := waitAux_pollCount_le fetch parcel.product parcel.version tgt mt mt 1 (le_refl 1)
    omega
  · intro fetch parcel tgt mt hno
    unfold wait_for_parcel_stage
    rw [waitAux_timeout_of fetch parcel.product parcel.version tgt mt mt 1 (le_refl 1)
      (fun i hi1 hi2 => hno i hi1 (by omega))]
    have harith : 1 - 1 + mt = mt := by omega
    rw [harith]

/-- Witness for C7: a record that stays `DOWNLOADED` forever under
`maxSeconds = 5` produces the timeout exception with exactly 5 polls
performed. -/
theorem C7_witness :
    pollCount (wait_for_parcel_stage c7Fetch c6Parcel "DISTRIBUTED" 5) ≤ 5 ∧
    wait_for_parcel_stage c7Fetch c6Parcel "DISTRIBUTED" 5 =
      .timeout c6Parcel.product c6Parcel.version "DISTRIBUTED" 5 5 :=
  ⟨C7_waiter_times_out.1 c7Fetch c6Parcel "DISTRIBUTED" 5,
   C7_waiter_times_out.2 c7Fetch c6Parcel "DISTRIBUTED" 5
     (fun i _ _ => ⟨by simp [c7Fetch], rfl⟩)⟩

/-! ## Lifecycle-driver and orchestrator claims -/

/-- C8: the activation driver resumes from the parcel's current stage:
entered (not in dry-run) at `DISTRIBUTED` it issues only the activate
call and waits only for `ACTIVATED` (no download-start, no
distribute-start), and entered at any stage outside
`AVAILABLE_REMOTELY`/`DOWNLOADED`/`DISTRIBUTED` it issues no collaborator
calls at all. -/
theorem C8_driver_resumes_from_stage :
    (∀ (env : String → Nat → PState) (parcel : Parcel) (mt : Nat),
      parcel.stage = "DISTRIBUTED" →
      (ensure_parcel_activated false env parcel mt).1 =
        [.activate, .wait "ACTIVATED"]) ∧
    (∀ (env : String → Nat → PState) (parcel : Parcel) (mt : Nat),
      parcel.stage ≠ "AVAILABLE_REMOTELY" → parcel.stage ≠ "DOWNLOADED" →
      parcel.stage ≠ "DISTRIBUTED" →
      ensure_parcel_activated false env parcel mt = ([], none)) := by
  constructor
  · intro env parcel mt hs
    unfold ensure_parcel_activated
    rw [if_neg (by simp), if_neg (by rw [hs]; decide), if_neg (by rw [hs]; decide),
      if_pos hs]
    rfl
  · intro env parcel mt h1 h2 h3
    unfold ensure_parcel_activated
    rw [if_neg (by simp), if_neg h1, if_neg h2, if_neg h3]

/-- Witness for C8: a `DISTRIBUTED` parcel produces exactly the
activate-and-wait trace, and an already-`ACTIVATED` parcel produces no
calls. -/
theorem C8_witness :
    (ensure_parcel_activated false happyEnv c8Distributed 120).1 =
      [.activate, .wait "ACTIVATED"] ∧
    ensure_parcel_activated false happyEnv c8Activated 120 = ([], none) :=
  ⟨C8_driver_resumes_from_stage.1 happyEnv c8Distributed 120 (by rfl),
   C8_driver_resumes_from_stage.2 happyEnv c8Activated 120 (by decide) (by decide)
     (by decide)⟩

/-- C9: with the dry-run flag set, a complete run issues no collaborator
calls whatsoever — in particular no download, distribute, activate,
restart or removal call — whatever the cluster contents, selected
candidate, or remote behaviour. -/
theorem C9_dry_run_issues_nothing (args : Args) (cluster : Cluster)
    (envA : String → Nat → PState) (envR : Parcel → String → Nat → PState)
    (hdry : args.dry_run = true) :
    (main args cluster envA envR).1 = [] := by
  unfold main
  cases hb : get_best_upgrade_candidate_parcel cluster.parcels args.parcel_name with
  | error e => rfl
  | ok o =>
    cases o with
    | none => rfl
    | some parcel =>
      simp only [hdry, ensure_parcel_activated, if_true]
      cases args.service_name with
      | none =>
        simp only
        cases hc : args.clear_after_success <;> simp
      | some sn =>
        simp only
        cases hs : find_service cluster sn with
        | error e => simp
        | ok s =>
          simp only
          cases hc : args.clear_after_success <;> simp

/-- Witness for C9: a dry run over a cluster that does have an upgrade
candidate, a matching service and clearing enabled still issues no
collaborator call. -/
theorem C9_witness : (main c9Args c9Cluster happyEnv (fun _ => happyEnv)).1 = [] :=
  C9_dry_run_issues_nothing c9Args c9Cluster happyEnv (fun _ => happyEnv) (by rfl)

end KuduUpgrade
